import Mathlib

/-!
Verification of the shs-engine ingestion core against its specification.

The definitions below are shallow embeddings of the Python sources:
  - src/queue_db.py    : the SQLite lease queue (tasks table operations)
  - src/worker.py      : the single-task pipeline and webhook delivery
  - src/text_extraction.py : quality scoring and OCR escalation
  - src/hunyuan_ocr.py : repetition cleanup of OCR output
  - src/geo_context.py : ray-casting point-in-polygon membership

Machine reals (Python floats) are modelled as exact rationals; SQLite rows
are modelled as a Lean structure and the tasks table as a list of rows in
rowid order.  Wall-clock reads of time.time() are passed in explicitly.
-/

namespace ShsEngine

/-! ## Task store (src/queue_db.py) -/

inductive Status
  | pending
  | leased
  | done
  | flagged
deriving DecidableEq

/-- One row of the tasks table (schema in queue_db.SCHEMA). -/
structure Task where
  id : Nat
  file_path : String
  theme : Option String
  intent_json : Option String
  job_id : Option Nat
  status : Status
  attempts : Nat
  last_error : Option String
  leased_at : Option ℚ
  tenant_id : Option String
  created_at : ℚ
  updated_at : ℚ
deriving DecidableEq

/-- The WHERE clause of the claim subquery in lease_one: status pending,
and the tenant filter (tenant = ? OR tenant IS NULL when allow_unscoped). -/
def matchesFilter (tenant : Option String) (allow : Bool) (t : Task) : Bool :=
  decide (t.status = Status.pending) &&
    (match tenant with
     | none => true
     | some tid => decide (t.tenant_id = some tid) || (allow && decide (t.tenant_id = none)))

/-- ORDER BY created_at LIMIT 1 over the rows satisfying p: the first
row (in rowid order) with minimal created_at. -/
def selectOldest (p : Task → Bool) : List Task → Option Task
  | [] => none
  | t :: ts =>
    match selectOldest p ts with
    | none => if p t then some t else none
    | some u => if p t then (if t.created_at ≤ u.created_at then some t else some u) else some u

/-- UPDATE tasks SET ... WHERE id = tid. -/
def updateTask (store : List Task) (tid : Nat) (f : Task → Task) : List Task :=
  store.map (fun t => if t.id = tid then f t else t)

/-- The SET clause of the claim update in lease_one. -/
def flipLease (now : ℚ) (t : Task) : Task :=
  { t with status := Status.leased, leased_at := some now,
           attempts := t.attempts + 1, updated_at := now }

/-- SELECT * FROM tasks WHERE status='leased' AND leased_at = now (fetchone,
no ORDER BY: first row in rowid order). -/
def readback (now : ℚ) (store : List Task) : Option Task :=
  store.find? (fun t => decide (t.status = Status.leased) && decide (t.leased_at = some now))

/-- The expired-lease scan filter: status leased, leased_at < now - timeout,
and the same tenant clause as the claim. -/
def expiredFilter (now vis : ℚ) (tenant : Option String) (allow : Bool) (t : Task) : Bool :=
  decide (t.status = Status.leased) &&
    (match t.leased_at with
     | some la => decide (la < now - vis)
     | none => false) &&
    (match tenant with
     | none => true
     | some tid => decide (t.tenant_id = some tid) || (allow && decide (t.tenant_id = none)))

/-- ORDER BY leased_at LIMIT 1 over rows satisfying p. -/
def selectLongestExpired (p : Task → Bool) : List Task → Option Task
  | [] => none
  | t :: ts =>
    match selectLongestExpired p ts with
    | none => if p t then some t else none
    | some u =>
      if p t then (if t.leased_at.getD 0 ≤ u.leased_at.getD 0 then some t else some u) else some u

/--
queue_db.lease_one.  Each body execution reads time.time() once, so the
embedding consumes one element of nows per invocation; the Python retry is
a recursive self-call of lease_one, which here is the recursive call on the
tail of nows.  Returns (final store, leased row or none).
-/
def leaseOne (vis : ℚ) (tenant : Option String) (allow : Bool) :
    List ℚ → List Task → List Task × Option Task
  | [], store => (store, none)
  | now :: rest, store =>
    let store1 :=
      match selectOldest (matchesFilter tenant allow) store with
      | none => store
      | some t => updateTask store t.id (flipLease now)
    match readback now store1 with
    | some row => (store1, some row)
    | none =>
      match selectLongestExpired (expiredFilter now vis tenant allow) store1 with
      | none => (store1, none)
      | some e =>
        leaseOne vis tenant allow rest
          (updateTask store1 e.id (fun u => { u with status := Status.pending, updated_at := now }))

/-- The NULL-aware tenant condition of complete/flag:
(tenant_id IS NULL AND ? IS NULL) OR tenant_id = ?. -/
def sqlTenantMatch (rowTenant caller : Option String) : Bool :=
  (decide (rowTenant = none) && decide (caller = none)) ||
    (match rowTenant, caller with
     | some r, some c => decide (r = c)
     | _, _ => false)

/-- queue_db.complete: conditional UPDATE to status done. -/
def complete (store : List Task) (now : ℚ) (taskId : Nat) (tenant : Option String) : List Task :=
  store.map (fun t =>
    if t.id = taskId ∧ sqlTenantMatch t.tenant_id tenant = true
    then { t with status := Status.done, updated_at := now }
    else t)

/-- queue_db.flag: conditional UPDATE to status flagged with last_error. -/
def flag (store : List Task) (now : ℚ) (taskId : Nat) (err : String) (tenant : Option String) :
    List Task :=
  store.map (fun t =>
    if t.id = taskId ∧ sqlTenantMatch t.tenant_id tenant = true
    then { t with status := Status.flagged, last_error := some err, updated_at := now }
    else t)

/-- The SET clause of reset_to_pending. -/
def resetRow (now : ℚ) (t : Task) : Task :=
  { t with status := Status.pending, last_error := none, updated_at := now }

/-- queue_db.reset_to_pending: UPDATE by id only, no tenant condition. -/
def resetToPending (store : List Task) (now : ℚ) (taskId : Nat) : List Task :=
  store.map (fun t => if t.id = taskId then resetRow now t else t)

/-! ## Geo membership (src/geo_context.py) -/

/-- A ring is a list of [lon, lat] vertex pairs. -/
abbrev Ring := List (ℚ × ℚ)

/-- The 1e-12 guard the source adds to the denominator. -/
def rayEps : ℚ := 1 / 1000000000000

/-- geo_context._point_in_ring: ray casting over the edges of one ring. -/
def pointInRing (lat lon : ℚ) (ring : Ring) : Bool :=
  let n := ring.length
  if n < 3 then false
  else
    (List.range n).foldl
      (fun inside i =>
        let p1 := ring.getD i (0, 0)
        let p2 := ring.getD ((i + 1) % n) (0, 0)
        if (decide (p1.2 > lat) != decide (p2.2 > lat)) &&
            decide (lon < (p2.1 - p1.1) * (lat - p1.2) / (p2.2 - p1.2 + rayEps) + p1.1)
        then !inside
        else inside)
      false

inductive Geometry
  | polygon (rings : List Ring)
  | multiPolygon (polys : List (List Ring))
  | noGeom
deriving DecidableEq

/-- geo_context._point_in_feature: Polygon tests coords[0] (or the empty
ring when coords is empty); MultiPolygon tests poly[0] of each non-empty
member polygon. -/
def pointInFeature (lat lon : ℚ) (g : Geometry) : Bool :=
  match g with
  | Geometry.polygon rings => pointInRing lat lon (rings.headD [])
  | Geometry.multiPolygon polys =>
    polys.any (fun poly =>
      match poly with
      | [] => false
      | r :: _ => pointInRing lat lon r)
  | Geometry.noGeom => false

/-! ## Quality scoring and OCR escalation (src/text_extraction.py) -/

/-- ASCII fragment of Python str.isprintable (codepoints 32..126). -/
def pyPrintable (c : Char) : Bool :=
  decide (32 ≤ c.toNat ∧ c.toNat ≤ 126)

/-- ASCII fragment of Python str.isalpha. -/
def pyAlpha (c : Char) : Bool :=
  decide ((65 ≤ c.toNat ∧ c.toNat ≤ 90) ∨ (97 ≤ c.toNat ∧ c.toNat ≤ 122))

/-- ASCII fragment of Python str.isdigit. -/
def pyDigit (c : Char) : Bool :=
  decide (48 ≤ c.toNat ∧ c.toNat ≤ 57)

/-- ASCII whitespace stripped by Python str.strip. -/
def pyIsSpace (c : Char) : Bool :=
  decide (c = ' ' ∨ c = '\t' ∨ c = '\n' ∨ c = '\x0b' ∨ c = '\x0c' ∨ c = '\r')

/-- Python str.strip on a character list. -/
def pyStrip (l : List Char) : List Char :=
  ((l.dropWhile pyIsSpace).reverse.dropWhile pyIsSpace).reverse

/-- text_extraction._quality: (score, printable length).  The decimal
weights 0.4/0.3/0.2/0.1 and threshold 0.5 are exact rationals here. -/
def quality (text : List Char) : ℚ × Nat :=
  if text = [] then (0, 0)
  else
    let printable := text.filter pyPrintable
    let length := printable.length
    if length = 0 then (0, 0)
    else
      let alpha := (printable.filter pyAlpha).length
      let digit := (printable.filter pyDigit).length
      let printFrac : ℚ := (length : ℚ) / (max text.length 1 : Nat)
      let alphaFrac : ℚ := (alpha : ℚ) / (length : ℚ)
      let density : ℚ := ((alpha : ℚ) + (digit : ℚ)) / (length : ℚ)
      let uniq : ℚ := (printable.dedup.length : ℚ) / (length : ℚ)
      (alphaFrac * (2/5) + density * (3/10) + printFrac * (1/5) + min uniq (1/2) * (1/10), length)

/-- The external calls made by text_extraction._ocr_image, each either a
returned text or a raised exception. -/
structure OcrEnv where
  hunyuanEnabled : Bool
  firstHunyuan : Except Unit (List Char)
  tesseract : Except Unit (List Char)
  escalationHunyuan : Except Unit (List Char)
  rawBytesDecode : List Char

/-- The pytesseract branch of _ocr_image, including the low-quality
escalation to the Hunyuan backend. -/
def ocrImageTess (env : OcrEnv) : List Char × String × Option String :=
  match env.tesseract with
  | Except.error _ => (env.rawBytesDecode, "none", some "pytesseract failure")
  | Except.ok text =>
    let q := quality text
    if q.1 < 1/4 ∨ q.2 < 30 then
      if env.hunyuanEnabled then
        match env.escalationHunyuan with
        | Except.ok hy =>
          if pyStrip hy ≠ [] ∧ (quality hy).1 ≥ q.1
          then (hy, "hunyuan", some "Escalated to Hunyuan (low tesseract quality)")
          else (text, "tesseract", some "Low OCR quality (tesseract)")
        | Except.error _ => (text, "tesseract", some "Low OCR quality (tesseract)")
      else (text, "tesseract", some "Low OCR quality (tesseract)")
    else (text, "tesseract", none)

/-- text_extraction._ocr_image: when the Hunyuan backend is selected the
first attempt returns directly; on its failure (or when not selected) the
pytesseract branch runs. -/
def ocrImage (env : OcrEnv) : List Char × String × Option String :=
  if env.hunyuanEnabled then
    match env.firstHunyuan with
    | Except.ok t => (t, "hunyuan", none)
    | Except.error _ => ocrImageTess env
  else ocrImageTess env

/-! ## Repetition cleanup (src/hunyuan_ocr.py) -/

/-- Maximal runs of equal characters, leftmost first. -/
def runsSplit : List Char → List (Char × Nat)
  | [] => []
  | c :: rest =>
    match runsSplit rest with
    | [] => [(c, 1)]
    | (d, k) :: t => if c = d then (c, k + 1) :: t else (c, 1) :: (d, k) :: t

def joinRuns (rs : List (Char × Nat)) : List Char :=
  rs.flatMap (fun r => List.replicate r.2 r.1)

/-- One run under the first cleanup pass: a run of 16 or more of the same
character collapses to 3.  The regex dot does not match a newline, so
newline runs are left alone. -/
def collapseRun (r : Char × Nat) : Char × Nat :=
  if r.1 ≠ '\n' ∧ 16 ≤ r.2 then (r.1, 3) else r

/-- First pass of _clean_repeated_substrings: the substitution of the
pattern matching 16+ equal characters by 3 of them. -/
def collapseRepeats (l : List Char) : List Char :=
  joinRuns ((runsSplit l).map collapseRun)

/-- The while loop of the second pass: how many consecutive copies of cand
end the text (the copy in place included), stepping back cand.length at a
time. -/
def countTailRepeatsAux (cand : List Char) : Nat → List Char → Nat
  | 0, _ => 0
  | fuel + 1, l =>
    if cand ≠ [] ∧ cand.length ≤ l.length ∧ l.drop (l.length - cand.length) = cand
    then countTailRepeatsAux cand fuel (l.take (l.length - cand.length)) + 1
    else 0

/-- Entry point with enough fuel for the whole loop: every successful
comparison strips at least one character, so l.length steps always reach
the loop exit. -/
def countTailRepeats (cand l : List Char) : Nat :=
  countTailRepeatsAux cand l.length l

/-- The for loop of the second pass over candidate lengths: the first
length whose tail repeats 5 or more times wins, keeping one copy. -/
def phraseLoop (text : List Char) : List Nat → List Char
  | [] => text
  | len :: rest =>
    let cand := text.drop (text.length - len)
    let count := countTailRepeats cand text
    if 5 ≤ count then text.take (text.length - len * (count - 1))
    else phraseLoop text rest

/-- hunyuan_ocr._clean_repeated_substrings: collapse character runs, then,
on texts of 1000+ characters, trim the first trailing phrase (candidate
lengths 2 .. n / 10) that repeats 5+ times. -/
def cleanRepeatedSubstrings (l : List Char) : List Char :=
  let t := collapseRepeats l
  let n := t.length
  if n < 1000 then t
  else phraseLoop t (List.range' 2 (n / 10 - 1))

/-! ## Worker pipeline and webhook (src/worker.py, src/llm_client.py) -/

/-- JSON values appearing in the callback payload. -/
inductive JVal
  | jnull
  | jstr (s : String)
  | jnum (n : Int)
deriving DecidableEq

/-- Serialization of one payload value.  The payload strings contain no
characters that json.dumps would escape. -/
def dumpJVal : JVal → String
  | JVal.jnull => "null"
  | JVal.jstr s => "\"" ++ s ++ "\""
  | JVal.jnum n => toString n

/-- Python json.dumps on a dict (insertion order), parameterized by the
item and key separators. -/
def pyJsonDumps (itemSep kvSep : String) (obj : List (String × JVal)) : String :=
  "\x7b" ++ String.intercalate itemSep
    (obj.map (fun kv => "\"" ++ kv.1 ++ "\"" ++ kvSep ++ dumpJVal kv.2)) ++ "\x7d"

def optJStr : Option String → JVal
  | none => JVal.jnull
  | some s => JVal.jstr s

/-- Python `a or b` on optional strings (None and the empty string are
falsy). -/
def pyOrStr (a b : Option String) : Option String :=
  match a with
  | some s => if s = "" then b else some s
  | none => b

/-- The payload dict built in worker._send_callback, in insertion order. -/
def callbackPayload (jobId taskId : Int) (status : String) (theme : Option String)
    (filePath : String) (error errorSummary : Option String) (timestamp : String)
    (docType inferredDate title : Option String) (docId : Option Int) :
    List (String × JVal) :=
  [("job_id", JVal.jnum jobId),
   ("task_id", JVal.jnum taskId),
   ("status", JVal.jstr status),
   ("theme", optJStr theme),
   ("file_path", JVal.jstr filePath),
   ("error", optJStr error),
   ("error_summary", optJStr (pyOrStr errorSummary error)),
   ("timestamp", JVal.jstr timestamp),
   ("doc_type", optJStr docType),
   ("inferred_date", optJStr inferredDate),
   ("title", optJStr title),
   ("doc_id", match docId with | none => JVal.jnull | some n => JVal.jnum n)]

/-- The byte string _send_callback feeds to hmac.new(...).hexdigest():
json.dumps(payload, separators=(",", ":")). -/
def signedBody (payload : List (String × JVal)) : String :=
  pyJsonDumps "," ":" payload

/-- The byte string requests.post(json=payload) actually transmits:
json.dumps(payload) with the default separators (", ", ": "). -/
def transmittedBody (payload : List (String × JVal)) : String :=
  pyJsonDumps ", " ": " payload

/-- validate.summarize_errors. -/
def summarizeErrors (errors : List String) : String :=
  match errors with
  | [] => ""
  | _ => String.intercalate "; " errors

/-- llm_client.LLMClient.summarize when no API key or base URL is set, and
on any HTTP or parse exception: first 400 characters of the whitespace
collapsed content, with a continuation mark when truncated. -/
def heuristicSnippet (content : String) : String :=
  let snippet := (content.trim).replace "\n" " "
  snippet.take 400 ++ (if 400 < snippet.length then "…" else "")

/-- Configuration bits of the worker that gate the pipeline stages. -/
structure WorkerCfg where
  offline : Bool
  hasApiKeyAndUrl : Bool
  summaryEnabled : Bool
  effectiveLlmModeSync : Bool
  prefilterPass : Bool
  forensicEnabled : Bool
  embeddingsEnabled : Bool
  insightsEnabled : Bool
  settingsLlmModeSync : Bool
deriving DecidableEq

/-- Forensic and insight payloads are opaque records for the pipeline. -/
structure LlmStruct where
  payload : String
deriving DecidableEq

/-- Outcomes of the external calls made by the enrichment sub-stages of
worker.run_once.  An error value is a raised exception at that call. -/
structure EnrichOutcomes where
  summarizeHttp : Except Unit String
  forensicCall : Except Unit (Option LlmStruct)
  embedCall : Except Unit (Option (List ℚ))
  insightsHttp : Except Unit LlmStruct
  relevancyCall : Except Unit (Option LlmStruct)
  geoCall : Except Unit (Option LlmStruct)

/-- llm_adapter.summarize composed with llm_client.summarize: returns None
offline, the heuristic snippet without credentials, the model answer on
success, and the heuristic snippet when the call raises (the try/except
inside llm_client). -/
def llmSummarize (cfg : WorkerCfg) (outcome : Except Unit String) (content : String) :
    Option String :=
  if cfg.offline then none
  else if cfg.hasApiKeyAndUrl then
    match outcome with
    | Except.ok s => some s.trim
    | Except.error _ => some (heuristicSnippet content)
  else some (heuristicSnippet content)

/-- llm_adapter.extract_insights composed with llm_client.extract_insights:
None offline or without credentials, and None when the call or the JSON
parse raises (the try/except inside llm_client). -/
def llmExtractInsights (cfg : WorkerCfg) (outcome : Except Unit LlmStruct) : Option LlmStruct :=
  if cfg.offline then none
  else if cfg.hasApiKeyAndUrl then
    match outcome with
    | Except.ok v => some v
    | Except.error _ => none
  else none

inductive TaskEnd
  | completed
  | taskFlagged (err : String)
deriving DecidableEq

/-- Observable results of one worker.run_once iteration on a leased task:
the terminal task state plus the enrichment values the pipeline kept. -/
structure RunResult where
  outcome : TaskEnd
  summary : Option String
  forensic : Option LlmStruct
  embeddingStored : Option (List ℚ)
  insightsLlm : Option LlmStruct
  relevancy : Option LlmStruct
  geoTags : Option LlmStruct

/--
The try block of worker.run_once after a task is leased, with the search
index, metadata inference and artifact writes modelled as total
collaborators (spec section 6).  Extraction failure raises; a non-empty
validate_record result raises ValueError("validation failed: ...");
the forensic, embeddings, relevancy and geo stages are each wrapped in
their own try/except and degrade to None; summarize and extract_insights
are fenced inside llm_client.  Any raised exception flags the task.
-/
def runOnce (cfg : WorkerCfg) (extraction : Except String String)
    (validationErrors : List String) (enr : EnrichOutcomes) : RunResult :=
  match extraction with
  | Except.error e =>
    { outcome := TaskEnd.taskFlagged e, summary := none, forensic := none,
      embeddingStored := none, insightsLlm := none, relevancy := none, geoTags := none }
  | Except.ok text =>
    if validationErrors ≠ [] then
      { outcome := TaskEnd.taskFlagged ("validation failed: " ++ summarizeErrors validationErrors),
        summary := none, forensic := none, embeddingStored := none,
        insightsLlm := none, relevancy := none, geoTags := none }
    else
      let summary :=
        if cfg.summaryEnabled ∧ cfg.effectiveLlmModeSync ∧ cfg.prefilterPass
        then llmSummarize cfg enr.summarizeHttp text
        else none
      let forensic :=
        if cfg.forensicEnabled ∧ ¬cfg.offline ∧ cfg.effectiveLlmModeSync
        then match enr.forensicCall with
          | Except.ok f => f
          | Except.error _ => none
        else none
      let emb :=
        if cfg.embeddingsEnabled
        then match enr.embedCall with
          | Except.ok v => v
          | Except.error _ => none
        else none
      let ins :=
        if cfg.insightsEnabled ∧ ¬cfg.offline ∧ cfg.settingsLlmModeSync
        then llmExtractInsights cfg enr.insightsHttp
        else none
      let rel :=
        match enr.relevancyCall with
        | Except.ok r => r
        | Except.error _ => none
      let geo :=
        match enr.geoCall with
        | Except.ok g => g
        | Except.error _ => none
      { outcome := TaskEnd.completed, summary := summary, forensic := forensic,
        embeddingStored := emb, insightsLlm := ins, relevancy := rel, geoTags := geo }

/-! ## Concrete instances used by witnesses and counterexamples -/

/-- A pending task of tenant acs enqueued at time 1. -/
def scenTask1 : Task :=
  { id := 1, file_path := "a.txt", theme := none, intent_json := none, job_id := none,
    status := Status.pending, attempts := 0, last_error := none, leased_at := none,
    tenant_id := some "acs", created_at := 1, updated_at := 1 }

/-- A pending task of tenant acs enqueued later, at time 2. -/
def scenTask2 : Task :=
  { id := 2, file_path := "b.txt", theme := none, intent_json := none, job_id := none,
    status := Status.pending, attempts := 0, last_error := none, leased_at := none,
    tenant_id := some "acs", created_at := 2, updated_at := 2 }

/-- A task whose lease (taken at time 100) is long expired at time 1000
under a 300 second visibility timeout. -/
def expiredLeaseTask : Task :=
  { id := 1, file_path := "doc.pdf", theme := none, intent_json := none, job_id := none,
    status := Status.leased, attempts := 1, last_error := none, leased_at := some 100,
    tenant_id := none, created_at := 50, updated_at := 100 }

/-- A done task owned by tenant b, with an old error recorded. -/
def doneTaskTenantB : Task :=
  { id := 7, file_path := "c.txt", theme := some "th", intent_json := some "\x7b\x7d",
    job_id := some 3, status := Status.done, attempts := 2, last_error := some "old",
    leased_at := some 4, tenant_id := some "b", created_at := 3, updated_at := 9 }

/-- expiredLeaseTask after the recycle UPDATE at time 1000. -/
def recycledOnce : Task :=
  { expiredLeaseTask with status := Status.pending, updated_at := 1000 }

/-- expiredLeaseTask reclaimed by the retry at time 1001. -/
def reclaimedTask : Task :=
  { expiredLeaseTask with
    status := Status.leased, leased_at := some 1001, attempts := 2, updated_at := 1001 }

/-- The exterior square ring of the C8 polygon ([lon, lat] pairs). -/
def holedExterior : Ring := [(0, 0), (10, 0), (10, 10), (0, 10)]

/-- An interior ring (hole) of the C8 polygon. -/
def holeRing : Ring := [(4, 4), (6, 4), (6, 6), (4, 6)]

/-- A payload as built by _send_callback for a completed task. -/
def cbPayloadSample : List (String × JVal) :=
  callbackPayload 1 2 "done" none "f.txt" none none "1700000000" none none none none

/-- The repetition-cleanup counterexample input: 500 noise pairs, then the
phrase abc seven times, then the phrase ab ten times (1041 characters). -/
def cleanupCexInput : List Char :=
  (List.replicate 500 ['x', 'y']).flatten ++ (List.replicate 7 ['a', 'b', 'c']).flatten ++
    (List.replicate 10 ['a', 'b']).flatten


/-- The quality score of a text with n printable characters (all of them
printable), a alphabetic, d digits and dd distinct characters, as computed
by text_extraction._quality. -/
def scoreQ (n a d dd : ℕ) : ℚ :=
  (a : ℚ) / n * (2/5) + ((a : ℚ) + d) / n * (3/10) + (n : ℚ) / n * (1/5) +
    min ((dd : ℚ) / n) (1/2) * (1/10)

/-- Well-formed run lists: adjacent runs carry distinct characters and
every run is non-empty. -/
def RunsWF (rs : List (Char × Nat)) : Prop :=
  List.Chain' (fun a b => a.1 ≠ b.1) rs ∧ ∀ r ∈ rs, 1 ≤ r.2

/-- An OCR environment where the Hunyuan backend is selected but its first
call raised, the fast engine produced garbled short output, and the
escalation call produced readable text. -/
def sampleOcrEnv : OcrEnv :=
  { hunyuanEnabled := true,
    firstHunyuan := Except.error (),
    tesseract := Except.ok [')', ')', '(', '('],
    escalationHunyuan := Except.ok ['R', 'e', 'a', 'd', 'a', 'b', 'l', 'e', ' ', 't', 'e', 'x', 't'],
    rawBytesDecode := [] }

/-- A worker configuration with every LLM-dependent stage switched on. -/
def sampleCfg : WorkerCfg :=
  { offline := false, hasApiKeyAndUrl := true, summaryEnabled := true,
    effectiveLlmModeSync := true, prefilterPass := true, forensicEnabled := true,
    embeddingsEnabled := true, insightsEnabled := true, settingsLlmModeSync := true }

/-- Enrichment outcomes where every external call raises. -/
def sampleEnrFail : EnrichOutcomes :=
  { summarizeHttp := Except.error (), forensicCall := Except.error (),
    embedCall := Except.error (), insightsHttp := Except.error (),
    relevancyCall := Except.error (), geoCall := Except.error () }

/-! ## Helper lemmas -/

theorem map_eq_self_of_mem {α : Type} {f : α → α} :
    ∀ {l : List α}, (∀ x ∈ l, f x = x) → l.map f = l := by
  intro l
  induction l with
  | nil => intro _; rfl
  | cons a as ih =>
    intro h
    simp only [List.map_cons]
    rw [h a (List.mem_cons_self a as), ih (fun x hx => h x (List.mem_cons_of_mem a hx))]

theorem selectOldest_eq_none {p : Task → Bool} :
    ∀ {l : List Task}, selectOldest p l = none → ∀ u ∈ l, p u = false := by
  intro l
  induction l with
  | nil => intro _ u hu; cases hu
  | cons v vs ih =>
    intro h u hu
    cases hrec : selectOldest p vs with
    | none =>
      simp only [selectOldest, hrec] at h
      rcases List.mem_cons.mp hu with rfl | hu
      · by_cases hpv : p u = true
        · rw [if_pos hpv] at h; cases h
        · simpa using hpv
      · exact ih hrec u hu
    | some w =>
      simp only [selectOldest, hrec] at h
      by_cases hpv : p v = true
      · rw [if_pos hpv] at h
        by_cases hle : v.created_at ≤ w.created_at
        · rw [if_pos hle] at h; cases h
        · rw [if_neg hle] at h; cases h
      · rw [if_neg hpv] at h; cases h

theorem selectOldest_spec {p : Task → Bool} :
    ∀ {l : List Task} {t : Task}, selectOldest p l = some t →
      t ∈ l ∧ p t = true ∧ ∀ u ∈ l, p u = true → t.created_at ≤ u.created_at := by
  intro l
  induction l with
  | nil => intro t h; cases h
  | cons v vs ih =>
    intro t h
    cases hrec : selectOldest p vs with
    | none =>
      simp only [selectOldest, hrec] at h
      by_cases hpv : p v = true
      · rw [if_pos hpv] at h
        injection h with h
        subst h
        refine ⟨List.mem_cons_self _ _, hpv, ?_⟩
        intro u hu hpu
        rcases List.mem_cons.mp hu with rfl | hu
        · exact le_refl _
        · rw [selectOldest_eq_none hrec u hu] at hpu; cases hpu
      · rw [if_neg hpv] at h; cases h
    | some w =>
      simp only [selectOldest, hrec] at h
      obtain ⟨hwmem, hwp, hwmin⟩ := ih hrec
      by_cases hpv : p v = true
      · rw [if_pos hpv] at h
        by_cases hle : v.created_at ≤ w.created_at
        · rw [if_pos hle] at h
          injection h with h
          subst h
          refine ⟨List.mem_cons_self _ _, hpv, ?_⟩
          intro u hu hpu
          rcases List.mem_cons.mp hu with rfl | hu
          · exact le_refl _
          · exact le_trans hle (hwmin u hu hpu)
        · rw [if_neg hle] at h
          injection h with h
          subst h
          refine ⟨List.mem_cons_of_mem _ hwmem, hwp, ?_⟩
          intro u hu hpu
          rcases List.mem_cons.mp hu with rfl | hu
          · exact le_of_not_le hle
          · exact hwmin u hu hpu
      · rw [if_neg hpv] at h
        injection h with h
        subst h
        refine ⟨List.mem_cons_of_mem _ hwmem, hwp, ?_⟩
        intro u hu hpu
        rcases List.mem_cons.mp hu with rfl | hu
        · exact absurd hpu hpv
        · exact hwmin u hu hpu

theorem readback_updateTask {t : Task} {now : ℚ} :
    ∀ {store : List Task}, t ∈ store → (store.map Task.id).Nodup →
      (∀ u ∈ store, u.status = Status.leased → u.leased_at ≠ some now) →
      readback now (updateTask store t.id (flipLease now)) = some (flipLease now t) := by
  intro store
  induction store with
  | nil => intro h _ _; cases h
  | cons v vs ih =>
    intro hmem hids hfresh
    simp only [List.map_cons, List.nodup_cons] at hids
    by_cases hv : v.id = t.id
    · have hvt : v = t := by
        rcases List.mem_cons.mp hmem with h | h
        · exact h.symm
        · exact absurd (hv ▸ List.mem_map_of_mem Task.id h) hids.1
      subst hvt
      simp only [updateTask, List.map_cons, readback, if_true]
      rw [List.find?_cons_of_pos]
      simp [flipLease]
    · have htvs : t ∈ vs := by
        rcases List.mem_cons.mp hmem with h | h
        · exact absurd (h ▸ rfl) hv
        · exact h
      simp only [updateTask, List.map_cons, readback]
      rw [if_neg hv, List.find?_cons_of_neg]
      · exact ih htvs hids.2 (fun u hu => hfresh u (List.mem_cons_of_mem _ hu))
      · intro hcon
        rw [Bool.and_eq_true, decide_eq_true_eq, decide_eq_true_eq] at hcon
        exact hfresh v (List.mem_cons_self _ _) hcon.1 hcon.2

theorem sqlTenantMatch_eq_true_iff (r c : Option String) :
    sqlTenantMatch r c = true ↔ r = c := by
  rcases r with _ | r <;> rcases c with _ | c <;> simp [sqlTenantMatch]

/-! ## Claim theorems -/

section RatKernelEval

attribute [local semireducible] Rat.add Rat.sub Rat.mul Rat.inv

/--
C1: lease_one, in one body execution with a fresh clock value, selects the
oldest pending task matching the tenant filter (ordered by created_at),
flips it to leased with leased_at = now and attempts incremented by exactly
one, and returns that same updated row; the store change is exactly that
one conditional update.
-/
theorem lease_one_claims_oldest (store : List Task) (now vis : ℚ) (rest : List ℚ)
    (tenant : Option String) (allow : Bool) (t : Task)
    (hids : (store.map Task.id).Nodup)
    (hfresh : ∀ u ∈ store, u.status = Status.leased → u.leased_at ≠ some now)
    (hsel : selectOldest (matchesFilter tenant allow) store = some t) :
    leaseOne vis tenant allow (now :: rest) store =
      (updateTask store t.id (flipLease now), some (flipLease now t)) ∧
    (flipLease now t).status = Status.leased ∧
    (flipLease now t).leased_at = some now ∧
    (flipLease now t).attempts = t.attempts + 1 ∧
    t ∈ store ∧ matchesFilter tenant allow t = true ∧
    (∀ u ∈ store, matchesFilter tenant allow u = true → t.created_at ≤ u.created_at) := by
  obtain ⟨hmem, hp, hmin⟩ := selectOldest_spec hsel
  refine ⟨?_, rfl, rfl, rfl, hmem, hp, hmin⟩
  simp only [leaseOne, hsel]
  rw [readback_updateTask hmem hids hfresh]

/-- C1 witness: the scenario of the claim — two pending tasks of the same
tenant enqueued at times 1 < 2; a single call returns the older one,
leased, with attempts bumped from 0 to 1. -/
theorem lease_one_claims_oldest_witness :
    selectOldest (matchesFilter (some "acs") true) [scenTask1, scenTask2] = some scenTask1 ∧
    scenTask1.created_at < scenTask2.created_at ∧
    (leaseOne 300 (some "acs") true [10] [scenTask1, scenTask2]).2 =
      some (flipLease 10 scenTask1) := by
  refine ⟨by decide, by decide, ?_⟩
  have h := lease_one_claims_oldest [scenTask1, scenTask2] 10 300 [] (some "acs") true scenTask1
    (by decide) (by decide) (by decide)
  rw [h.1]

/--
C2: evaluation at a store holding no pending task and exactly one expired
lease.  The recycle path flips that lease (and only it) back to pending and
the claim is retried by lease_one re-invoking itself: with two clock reads
(the second feeding the recursive body execution) the call returns the
recycled task, while a single body execution returns none and leaves the
store recycled-but-unclaimed.  The code performs the retry by recursion
(queue_db.py line 180), not by the bounded loop the spec prescribes.
-/
theorem lease_one_recycle_retry_eval :
    leaseOne 300 none true [1000, 1001] [expiredLeaseTask] =
      ([reclaimedTask], some reclaimedTask) ∧
    leaseOne 300 none true [1000] [expiredLeaseTask] = ([recycledOnce], none) := by
  constructor
  · decide
  · decide

/--
C6: complete and flag are no-ops when no stored task has both the given id
and an SQL-matching tenant: the whole store is returned unchanged (the
embedding is total, matching the exception-free conditional UPDATE that
matches zero rows).  This covers unknown task ids and tenant mismatches in
either direction.
-/
theorem complete_flag_noop_on_unknown_or_mismatch
    (store : List Task) (now : ℚ) (taskId : Nat) (tenant : Option String) (err : String)
    (h : ∀ t ∈ store, t.id = taskId → t.tenant_id ≠ tenant) :
    complete store now taskId tenant = store ∧ flag store now taskId err tenant = store := by
  constructor
  · apply map_eq_self_of_mem
    intro t ht
    rw [if_neg]
    rintro ⟨hid, hmatch⟩
    exact h t ht hid ((sqlTenantMatch_eq_true_iff _ _).mp hmatch)
  · apply map_eq_self_of_mem
    intro t ht
    rw [if_neg]
    rintro ⟨hid, hmatch⟩
    exact h t ht hid ((sqlTenantMatch_eq_true_iff _ _).mp hmatch)

/-- C6 witness: an unknown id (2) and a tenant-mismatched id (7, owned by
tenant b but addressed without a tenant) both leave the store untouched. -/
theorem complete_flag_noop_witness :
    (complete [doneTaskTenantB] 11 2 (some "b") = [doneTaskTenantB] ∧
      flag [doneTaskTenantB] 11 2 "boom" (some "b") = [doneTaskTenantB]) ∧
    (complete [doneTaskTenantB] 11 7 none = [doneTaskTenantB] ∧
      flag [doneTaskTenantB] 11 7 "boom" none = [doneTaskTenantB]) :=
  ⟨complete_flag_noop_on_unknown_or_mismatch [doneTaskTenantB] 11 2 (some "b") "boom"
      (by decide),
   complete_flag_noop_on_unknown_or_mismatch [doneTaskTenantB] 11 7 none "boom"
      (by decide)⟩

/--
C8 counterexample: the AOI polygon with exterior ring (0,0)-(10,0)-(10,10)-
(0,10) and interior ring (hole) (4,4)-(6,4)-(6,6)-(4,6).  The point at
lat 5, lon 5 lies inside the hole (first conjunct), yet _point_in_feature
reports it as contained in the AOI (second conjunct), because only
coordinates[0] — the exterior ring — is ever tested.  The claim says such a
point is reported as not contained.
-/
theorem point_in_hole_reported_contained :
    pointInRing 5 5 holeRing = true ∧
    pointInFeature 5 5 (Geometry.polygon [holedExterior, holeRing]) = true := by
  constructor
  · decide
  · decide

/--
C8 amended: point-in-AOI membership is ray-casting against the exterior
ring only; interior rings are ignored, so membership in a polygon is
independent of its holes.  A point inside the exterior ring is reported
contained even when it lies inside a hole; a point inside the exterior ring
and outside every hole is likewise contained, and a point outside the
exterior ring is not.
-/
theorem point_in_feature_ignores_holes (lat lon : ℚ) (ext : Ring) (holes : List Ring) :
    pointInFeature lat lon (Geometry.polygon (ext :: holes)) =
      pointInFeature lat lon (Geometry.polygon [ext]) := rfl

/--
C10: reset_to_pending takes no tenant argument and checks no status: for
every stored task with the given id — whatever its status, tenant or
caller — the row becomes pending with last_error cleared, while file_path,
theme, intent_json, job_id, attempts, tenant_id and created_at are
unchanged; rows with other ids are untouched.
-/
theorem reset_to_pending_unconditional
    (store : List Task) (now : ℚ) (taskId : Nat) (t : Task) (ht : t ∈ store) :
    (t.id = taskId →
      resetRow now t ∈ resetToPending store now taskId ∧
      (resetRow now t).status = Status.pending ∧ (resetRow now t).last_error = none ∧
      (resetRow now t).file_path = t.file_path ∧ (resetRow now t).theme = t.theme ∧
      (resetRow now t).intent_json = t.intent_json ∧ (resetRow now t).job_id = t.job_id ∧
      (resetRow now t).attempts = t.attempts ∧ (resetRow now t).tenant_id = t.tenant_id ∧
      (resetRow now t).created_at = t.created_at) ∧
    (t.id ≠ taskId → t ∈ resetToPending store now taskId) := by
  constructor
  · intro hid
    exact ⟨List.mem_map.mpr ⟨t, ht, by simp [hid]⟩, rfl, rfl, rfl, rfl, rfl, rfl, rfl, rfl, rfl⟩
  · intro hid
    exact List.mem_map.mpr ⟨t, ht, by simp [hid]⟩

/-- C10 witness: a done task of tenant b, reset by id with no tenant and no
status precondition: it lands pending with the error cleared and its other
fields intact. -/
theorem reset_to_pending_unconditional_witness :
    resetRow 20 doneTaskTenantB ∈ resetToPending [doneTaskTenantB] 20 7 ∧
    (resetRow 20 doneTaskTenantB).tenant_id = some "b" ∧
    (resetRow 20 doneTaskTenantB).status = Status.pending :=
  ⟨((reset_to_pending_unconditional [doneTaskTenantB] 20 7 doneTaskTenantB
      (by decide)).1 (by decide)).1, rfl, rfl⟩

end RatKernelEval

section RatKernelEval2

attribute [local semireducible] Rat.add Rat.sub Rat.mul Rat.inv

/--
C4: evaluation at a concrete callback.  _send_callback computes the HMAC
signature over json.dumps(payload, separators=(",", ":")) (signedBody), but
requests.post(json=payload) serializes the payload again with json.dumps'
default separators (", ", ": ") (transmittedBody); the two byte strings
differ, so the sha256=<hex> header is the digest of a string that is not
the transmitted body, contrary to the claim.
-/
theorem webhook_signs_compact_not_transmitted_body :
    signedBody cbPayloadSample ≠ transmittedBody cbPayloadSample := by decide

/--
C5: when the Hunyuan (VLM) backend is enabled and the fast-engine output is
low quality (score < 0.25 or printable length < 30), the image is re-OCRed
with the VLM backend; the VLM output replaces the fast output only if it is
non-blank and its quality score is not worse, the fast output being kept
otherwise (including when the escalation call raises).
-/
theorem ocr_escalation_keeps_not_worse (env : OcrEnv) (text : List Char)
    (henabled : env.hunyuanEnabled = true)
    (hfirst : env.firstHunyuan = Except.error ())
    (htess : env.tesseract = Except.ok text)
    (hlow : (quality text).1 < 1/4 ∨ (quality text).2 < 30) :
    (∀ hy, env.escalationHunyuan = Except.ok hy →
      ((ocrImage env).1 = hy ∧ (ocrImage env).2.1 = "hunyuan" ∧
        (quality text).1 ≤ (quality hy).1) ∨
      ((ocrImage env).1 = text ∧ (ocrImage env).2.1 = "tesseract")) ∧
    (∀ hy, env.escalationHunyuan = Except.ok hy → pyStrip hy ≠ [] →
      (quality text).1 ≤ (quality hy).1 →
      (ocrImage env).1 = hy ∧ (ocrImage env).2.1 = "hunyuan") ∧
    (env.escalationHunyuan = Except.error () →
      (ocrImage env).1 = text ∧ (ocrImage env).2.1 = "tesseract") := by
  have hocr : ocrImage env = ocrImageTess env := by
    simp [ocrImage, henabled, hfirst]
  rw [hocr]
  simp only [ocrImageTess, htess]
  rw [if_pos hlow, if_pos henabled]
  refine ⟨?_, ?_, ?_⟩
  · intro hy hhy
    simp only [hhy]
    by_cases hc : pyStrip hy ≠ [] ∧ (quality hy).1 ≥ (quality text).1
    · rw [if_pos hc]
      exact Or.inl ⟨rfl, rfl, hc.2⟩
    · rw [if_neg hc]
      exact Or.inr ⟨rfl, rfl⟩
  · intro hy hhy hstrip hge
    simp only [hhy]
    rw [if_pos ⟨hstrip, hge⟩]
    exact ⟨rfl, rfl⟩
  · intro herr
    simp [herr]

/-- C5 witness: garbled 4-character fast output (score 0.25 is not < 0.25
but the length 4 < 30 triggers escalation); the readable escalation output
scores higher and replaces it, the backend being reported as hunyuan. -/
theorem ocr_escalation_keeps_not_worse_witness :
    (quality [')', ')', '(', '(']).2 < 30 ∧
    (ocrImage sampleOcrEnv).1 =
      ['R', 'e', 'a', 'd', 'a', 'b', 'l', 'e', ' ', 't', 'e', 'x', 't'] ∧
    (ocrImage sampleOcrEnv).2.1 = "hunyuan" := by
  have h := (ocr_escalation_keeps_not_worse sampleOcrEnv [')', ')', '(', '(']
    rfl rfl rfl (Or.inr (by decide))).2.1
    ['R', 'e', 'a', 'd', 'a', 'b', 'l', 'e', ' ', 't', 'e', 'x', 't']
    rfl (by decide) (by decide)
  exact ⟨by decide, h.1, h.2⟩

/--
C3: for a leased task whose extraction succeeds and whose validation passes,
the worker iteration completes the task whatever the enrichment outcomes:
a raised forensic, embeddings, relevancy or geo call degrades that stage to
none, a raised LLM summarize call degrades to the heuristic snippet, and
none of them flags the task.  Conversely (last conjunct) a flagged outcome
can only arise from an extraction failure or a non-empty validation result.
-/
theorem enrichment_failures_never_flag (cfg : WorkerCfg) (extraction : Except String String)
    (ve : List String) (enr : EnrichOutcomes) (text : String)
    (hex : extraction = Except.ok text) (hval : ve = []) :
    (runOnce cfg extraction ve enr).outcome = TaskEnd.completed ∧
    (enr.forensicCall = Except.error () → (runOnce cfg extraction ve enr).forensic = none) ∧
    (enr.embedCall = Except.error () → (runOnce cfg extraction ve enr).embeddingStored = none) ∧
    (enr.relevancyCall = Except.error () → (runOnce cfg extraction ve enr).relevancy = none) ∧
    (enr.geoCall = Except.error () → (runOnce cfg extraction ve enr).geoTags = none) ∧
    (cfg.offline = false → cfg.hasApiKeyAndUrl = true → enr.summarizeHttp = Except.error () →
      cfg.summaryEnabled = true → cfg.effectiveLlmModeSync = true → cfg.prefilterPass = true →
      (runOnce cfg extraction ve enr).summary = some (heuristicSnippet text)) ∧
    (∀ (cfg2 : WorkerCfg) (extr2 : Except String String) (ve2 : List String)
        (enr2 : EnrichOutcomes) (e : String),
      (runOnce cfg2 extr2 ve2 enr2).outcome = TaskEnd.taskFlagged e →
      (∃ m, extr2 = Except.error m) ∨ ve2 ≠ []) := by
  subst hex hval
  refine ⟨by simp [runOnce], ?_, ?_, ?_, ?_, ?_, ?_⟩
  · intro hfor
    simp only [runOnce, ne_eq, not_true_eq_false, if_false, hfor]
    split <;> rfl
  · intro hemb
    simp only [runOnce, ne_eq, not_true_eq_false, if_false, hemb]
    split <;> rfl
  · intro hrel
    simp [runOnce, hrel]
  · intro hgeo
    simp [runOnce, hgeo]
  · intro hoff hkey hsum h1 h2 h3
    simp [runOnce, llmSummarize, hoff, hkey, hsum, h1, h2, h3]
  · intro cfg2 extr2 ve2 enr2 e hflag
    cases hx : extr2 with
    | error m => exact Or.inl ⟨m, rfl⟩
    | ok t2 =>
      by_cases hve : ve2 = []
      · subst hve hx
        simp [runOnce] at hflag
      · exact Or.inr hve

/-- C3 witness: every enrichment call raising at once still completes the
task; relevancy and geo degrade to none and the summary degrades to the
heuristic snippet. -/
theorem enrichment_failures_never_flag_witness :
    (runOnce sampleCfg (Except.ok "page text") [] sampleEnrFail).outcome = TaskEnd.completed ∧
    (runOnce sampleCfg (Except.ok "page text") [] sampleEnrFail).relevancy = none ∧
    (runOnce sampleCfg (Except.ok "page text") [] sampleEnrFail).geoTags = none ∧
    (runOnce sampleCfg (Except.ok "page text") [] sampleEnrFail).summary =
      some (heuristicSnippet "page text") := by
  have h := enrichment_failures_never_flag sampleCfg (Except.ok "page text") [] sampleEnrFail
    "page text" rfl rfl
  exact ⟨h.1, h.2.2.2.1 rfl, h.2.2.2.2.1 rfl, h.2.2.2.2.2.1 rfl rfl rfl rfl rfl rfl⟩

end RatKernelEval2

/-! ## Quality-score monotonicity (C9) -/

theorem pyAlpha_not_pyDigit {c : Char} (h : pyAlpha c = true) : pyDigit c = false := by
  simp only [pyAlpha, decide_eq_true_eq] at h
  simp only [pyDigit, decide_eq_false_iff_not]
  omega

theorem filter_alpha_digit_length {l : List Char}
    (h : ∀ c ∈ l, pyAlpha c = true ∨ pyDigit c = true) :
    (l.filter pyAlpha).length + (l.filter pyDigit).length = l.length := by
  induction l with
  | nil => rfl
  | cons c cs ih =>
    have hc := h c (List.mem_cons_self c cs)
    have ihc := ih (fun x hx => h x (List.mem_cons_of_mem c hx))
    by_cases ha : pyAlpha c = true
    · rw [List.filter_cons_of_pos ha, List.filter_cons_of_neg (by simp [pyAlpha_not_pyDigit ha])]
      simp only [List.length_cons]
      omega
    · have hd : pyDigit c = true := hc.resolve_left ha
      rw [List.filter_cons_of_neg (by simp [ha]), List.filter_cons_of_pos hd]
      simp only [List.length_cons]
      omega

theorem quality_eq_scoreQ {l : List Char} (hne : l ≠ [])
    (hpr : ∀ c ∈ l, pyPrintable c = true) :
    quality l = (scoreQ l.length (l.filter pyAlpha).length (l.filter pyDigit).length
      l.dedup.length, l.length) := by
  have hfe : l.filter pyPrintable = l := List.filter_eq_self.mpr hpr
  have hlen0 : l.length ≠ 0 := by
    simpa [List.length_eq_zero] using hne
  have hmax : max l.length 1 = l.length := Nat.max_eq_left (Nat.one_le_iff_ne_zero.mpr hlen0)
  simp only [quality, hfe, if_neg hne, if_neg hlen0, hmax, scoreQ]

theorem scoreQ_insert_lt (n a dd : ℕ) (d : ℕ) (hn : 1 ≤ n) (hd : a + d = n)
    (hddn : dd ≤ n) :
    scoreQ (n + 1) a d (dd + 1) < scoreQ n a d dd := by
  have hx0 : (0 : ℚ) < n := by exact_mod_cast hn
  have hx1 : (0 : ℚ) < (n : ℚ) + 1 := by linarith
  have hxne : (n : ℚ) ≠ 0 := ne_of_gt hx0
  have hx1ne : (n : ℚ) + 1 ≠ 0 := ne_of_gt hx1
  have ha : (0 : ℚ) ≤ a := Nat.cast_nonneg a
  have han : (a : ℚ) + d = n := by exact_mod_cast hd
  have hddq : (dd : ℚ) ≤ n := by exact_mod_cast hddn
  have hdd0 : (0 : ℚ) ≤ dd := Nat.cast_nonneg dd
  have halpha : (a : ℚ) / (n + 1) ≤ (a : ℚ) / n :=
    div_le_div_of_nonneg_left ha hx0 (by linarith)
  have e2 : (n : ℚ) / (n + 1) = 1 - 1 / (n + 1) := by field_simp
  have e3 : ((dd : ℚ) + 1) / (n + 1) = (dd : ℚ) / n + ((n : ℚ) - dd) / (n * (n + 1)) := by
    field_simp
    ring
  have e4 : ((n : ℚ) - dd) / (n * (n + 1)) ≤ 1 / (n + 1) := by
    rw [div_le_div_iff₀ (by positivity) hx1]
    nlinarith
  have e5 : (0 : ℚ) < 1 / (n + 1) := by positivity
  simp only [scoreQ, Nat.cast_add, Nat.cast_one]
  rw [han, div_self hxne, div_self hx1ne, e2]
  rcases min_cases (((dd : ℚ) + 1) / (n + 1)) (1 / 2) with ⟨hm1, hc1⟩ | ⟨hm1, hc1⟩ <;>
    rcases min_cases ((dd : ℚ) / n) (1 / 2) with ⟨hm2, hc2⟩ | ⟨hm2, hc2⟩ <;>
      rw [hm1, hm2]
  · rw [e3]
    linarith
  · linarith
  · have hc3 : (1 : ℚ) / 2 < (dd : ℚ) / n + ((n : ℚ) - dd) / (n * (n + 1)) := e3 ▸ hc1
    linarith
  · linarith

/--
C9: the extraction quality score is monotonic in alphanumeric density: for
every non-empty clean string (all characters printable and alphabetic or
numeric), inserting a printable character that is neither alphabetic nor a
digit — punctuation — at any position strictly lowers the quality score
(in the exact-rational model of the score).
-/
theorem quality_punct_insert_lowers (u v : List Char) (p : Char)
    (hne : u ++ v ≠ [])
    (hclean : ∀ c ∈ u ++ v, pyPrintable c = true ∧ (pyAlpha c = true ∨ pyDigit c = true))
    (hpp : pyPrintable p = true) (hpa : pyAlpha p = false) (hpd : pyDigit p = false) :
    (quality (u ++ p :: v)).1 < (quality (u ++ v)).1 := by
  have hprS : ∀ c ∈ u ++ v, pyPrintable c = true := fun c hc => (hclean c hc).1
  have halnum : ∀ c ∈ u ++ v, pyAlpha c = true ∨ pyDigit c = true :=
    fun c hc => (hclean c hc).2
  have hprT : ∀ c ∈ u ++ p :: v, pyPrintable c = true := by
    intro c hc
    rcases List.mem_append.mp hc with hc | hc
    · exact hprS c (List.mem_append.mpr (Or.inl hc))
    · rcases List.mem_cons.mp hc with rfl | hc
      · exact hpp
      · exact hprS c (List.mem_append.mpr (Or.inr hc))
  have htne : u ++ p :: v ≠ [] := by
    intro h
    have := congrArg List.length h
    simp [List.length_append] at this
  have hlent : (u ++ p :: v).length = (u ++ v).length + 1 := by
    simp only [List.length_append, List.length_cons]
    omega
  have halphaT : ((u ++ p :: v).filter pyAlpha).length = ((u ++ v).filter pyAlpha).length := by
    rw [List.filter_append, List.filter_append, List.filter_cons_of_neg (by simp [hpa])]
  have hdigitT : ((u ++ p :: v).filter pyDigit).length = ((u ++ v).filter pyDigit).length := by
    rw [List.filter_append, List.filter_append, List.filter_cons_of_neg (by simp [hpd])]
  have hpnot : p ∉ u ++ v := by
    intro hmem
    rcases (hclean p hmem).2 with h | h
    · rw [hpa] at h; cases h
    · rw [hpd] at h; cases h
  have hdedupT : (u ++ p :: v).dedup.length = (u ++ v).dedup.length + 1 := by
    rw [← List.card_toFinset, ← List.card_toFinset]
    have hfs : (u ++ p :: v).toFinset = insert p (u ++ v).toFinset := by
      simp [List.toFinset_append, List.toFinset_cons, Finset.union_insert]
    rw [hfs, Finset.card_insert_of_not_mem (by simpa using hpnot)]
  have hn : 1 ≤ (u ++ v).length := List.length_pos.mpr hne
  have hsum : ((u ++ v).filter pyAlpha).length + ((u ++ v).filter pyDigit).length =
      (u ++ v).length := filter_alpha_digit_length halnum
  have hddn : (u ++ v).dedup.length ≤ (u ++ v).length :=
    (List.dedup_sublist (u ++ v)).length_le
  rw [quality_eq_scoreQ htne hprT, quality_eq_scoreQ hne hprS]
  simp only
  rw [hlent, halphaT, hdigitT, hdedupT]
  exact scoreQ_insert_lt (u ++ v).length ((u ++ v).filter pyAlpha).length
    (u ++ v).dedup.length ((u ++ v).filter pyDigit).length hn hsum hddn

/-- C9 witness: inserting an exclamation mark into the clean string ab
strictly lowers the score. -/
theorem quality_punct_insert_lowers_witness :
    (quality (['a'] ++ '!' :: ['b'])).1 < (quality (['a'] ++ ['b'])).1 :=
  quality_punct_insert_lowers ['a'] ['b'] '!' (by decide) (by decide) rfl rfl rfl

/-! ## Repetition-cleanup lemmas (C7) -/

theorem runsSplit_ne_nil {c : Char} {rest : List Char} : runsSplit (c :: rest) ≠ [] := by
  simp only [runsSplit]
  cases runsSplit rest with
  | nil => simp
  | cons r t =>
    by_cases h : c = r.1 <;> simp [h]

theorem runsSplit_eq_nil_iff {l : List Char} : runsSplit l = [] ↔ l = [] := by
  cases l with
  | nil => simp [runsSplit]
  | cons c rest => simp [runsSplit_ne_nil]

theorem runsSplit_head? : ∀ l : List Char, (runsSplit l).head?.map Prod.fst = l.head?
  | [] => rfl
  | c :: rest => by
    simp only [runsSplit]
    cases runsSplit rest with
    | nil => rfl
    | cons r t =>
      by_cases h : c = r.1 <;> simp [h]

theorem runsSplit_wf : ∀ l : List Char, RunsWF (runsSplit l)
  | [] => ⟨List.chain'_nil, by simp [runsSplit]⟩
  | c :: rest => by
    obtain ⟨hch, hcnt⟩ := runsSplit_wf rest
    simp only [runsSplit]
    cases hrec : runsSplit rest with
    | nil =>
      refine ⟨List.chain'_singleton _, ?_⟩
      simp
    | cons r t =>
      obtain ⟨d, k⟩ := r
      rw [hrec] at hch hcnt
      show RunsWF (if c = d then (c, k + 1) :: t else (c, 1) :: (d, k) :: t)
      by_cases h : c = d
      · rw [if_pos h]
        obtain ⟨hhd, htail⟩ := List.chain'_cons'.mp hch
        refine ⟨List.chain'_cons'.mpr ⟨?_, htail⟩, ?_⟩
        · intro b hb
          simpa [h] using hhd b hb
        · intro x hx
          rcases List.mem_cons.mp hx with rfl | hx
          · simp
          · exact hcnt x (List.mem_cons_of_mem _ hx)
      · rw [if_neg h]
        refine ⟨List.chain'_cons.mpr ⟨h, hch⟩, ?_⟩
        intro x hx
        rcases List.mem_cons.mp hx with rfl | hx
        · simp
        · exact hcnt x hx

theorem joinRuns_cons (r : Char × Nat) (t : List (Char × Nat)) :
    joinRuns (r :: t) = List.replicate r.2 r.1 ++ joinRuns t := by
  simp [joinRuns]

theorem joinRuns_runsSplit : ∀ l : List Char, joinRuns (runsSplit l) = l
  | [] => rfl
  | c :: rest => by
    have ih := joinRuns_runsSplit rest
    simp only [runsSplit]
    cases hrec : runsSplit rest with
    | nil =>
      rw [hrec] at ih
      simp only [joinRuns, List.flatMap_cons, List.flatMap_nil, List.replicate,
        List.nil_append, List.append_nil]
      rw [← ih]
      rfl
    | cons r t =>
      obtain ⟨d, k⟩ := r
      rw [hrec] at ih
      show joinRuns (if c = d then (c, k + 1) :: t else (c, 1) :: (d, k) :: t) = c :: rest
      by_cases h : c = d
      · rw [if_pos h, joinRuns_cons]
        rw [joinRuns_cons] at ih
        simp only [List.replicate_succ, List.cons_append]
        rw [h, ih]
      · rw [if_neg h, joinRuns_cons, joinRuns_cons]
        rw [joinRuns_cons] at ih
        simp only [List.replicate_succ, List.replicate_zero, List.cons_append,
          List.nil_append]
        rw [ih]

theorem runsSplit_replicate_append {c : Char} {l : List Char} :
    ∀ k : Nat, 1 ≤ k → (∀ d, l.head? = some d → d ≠ c) →
      runsSplit (List.replicate k c ++ l) = (c, k) :: runsSplit l := by
  intro k
  induction k with
  | zero => intro h; cases h
  | succ k ih =>
    intro _ hhd
    by_cases hk : 1 ≤ k
    · have hrec := ih hk hhd
      have h2 : List.replicate (k + 1) c ++ l = c :: (List.replicate k c ++ l) := by
        rw [List.replicate_succ, List.cons_append]
      rw [h2]
      simp only [runsSplit]
      rw [hrec]
      show (if c = c then (c, k + 1) :: runsSplit l else (c, 1) :: (c, k) :: runsSplit l) =
        (c, k + 1) :: runsSplit l
      rw [if_pos rfl]
    · have hk0 : k = 0 := by omega
      subst hk0
      have h1 : List.replicate (0 + 1) c ++ l = c :: l := by
        simp
      rw [h1]
      simp only [runsSplit]
      cases hrec : runsSplit l with
      | nil => rfl
      | cons r t =>
        obtain ⟨d, m⟩ := r
        have hh := runsSplit_head? l
        rw [hrec] at hh
        simp only [List.head?_cons, Option.map_some'] at hh
        cases hl : l.head? with
        | none => rw [hl] at hh; cases hh
        | some e =>
          rw [hl] at hh
          injection hh with hh
          have hcd : ¬(c = d) := by
            intro hc
            exact (hhd e hl) (by rw [← hh, ← hc])
          show (if c = d then (c, m + 1) :: t else (c, 1) :: (d, m) :: t) =
            (c, 0 + 1) :: (d, m) :: t
          rw [if_neg hcd]

theorem runsSplit_joinRuns : ∀ {rs : List (Char × Nat)}, RunsWF rs →
    runsSplit (joinRuns rs) = rs := by
  intro rs
  induction rs with
  | nil => intro _; rfl
  | cons r t ih =>
    intro h
    obtain ⟨hch, hcnt⟩ := h
    rw [joinRuns_cons]
    have hk : 1 ≤ r.2 := hcnt r (List.mem_cons_self _ _)
    have hhd : ∀ d, (joinRuns t).head? = some d → d ≠ r.1 := by
      intro d hd
      cases t with
      | nil => simp [joinRuns] at hd
      | cons s t' =>
        have hs : 1 ≤ s.2 := hcnt s (List.mem_cons_of_mem _ (List.mem_cons_self _ _))
        obtain ⟨m, hm⟩ : ∃ m, s.2 = m + 1 := ⟨s.2 - 1, by omega⟩
        rw [joinRuns_cons, hm, List.replicate_succ, List.cons_append] at hd
        simp only [List.head?_cons, Option.some.injEq] at hd
        have hne : r.1 ≠ s.1 := (List.chain'_cons'.mp hch).1 s (by simp)
        rw [← hd]
        exact hne.symm
    rw [runsSplit_replicate_append r.2 hk hhd]
    have hwf : RunsWF t :=
      ⟨(List.chain'_cons'.mp hch).2, fun x hx => hcnt x (List.mem_cons_of_mem _ hx)⟩
    rw [ih hwf]

theorem collapseRun_fst (r : Char × Nat) : (collapseRun r).1 = r.1 := by
  simp only [collapseRun]
  split <;> rfl

theorem collapseRun_cnt_pos {r : Char × Nat} (h : 1 ≤ r.2) : 1 ≤ (collapseRun r).2 := by
  simp only [collapseRun]
  split <;> simp [h]

theorem collapseRun_cnt_le (r : Char × Nat) : (collapseRun r).2 ≤ r.2 := by
  simp only [collapseRun]
  split
  · next h => omega
  · exact le_refl _

theorem collapseRun_idem (r : Char × Nat) : collapseRun (collapseRun r) = collapseRun r := by
  simp only [collapseRun]
  split
  · next h => simp
  · rfl

theorem runsWF_map_collapseRun {rs : List (Char × Nat)} (h : RunsWF rs) :
    RunsWF (rs.map collapseRun) := by
  obtain ⟨hch, hcnt⟩ := h
  constructor
  · rw [List.chain'_map]
    refine hch.imp ?_
    intro a b hab
    simpa [collapseRun_fst] using hab
  · intro x hx
    rcases List.mem_map.mp hx with ⟨r, hr, rfl⟩
    exact collapseRun_cnt_pos (hcnt r hr)

theorem collapseRepeats_idem (l : List Char) :
    collapseRepeats (collapseRepeats l) = collapseRepeats l := by
  simp only [collapseRepeats]
  rw [runsSplit_joinRuns (runsWF_map_collapseRun (runsSplit_wf l)), List.map_map]
  have hf : collapseRun ∘ collapseRun = collapseRun := funext collapseRun_idem
  rw [hf]

theorem joinRuns_length (rs : List (Char × Nat)) :
    (joinRuns rs).length = (rs.map (fun r => r.2)).sum := by
  induction rs with
  | nil => rfl
  | cons r t ih =>
    rw [joinRuns_cons]
    simp [ih]

theorem collapseRepeats_length_le (l : List Char) :
    (collapseRepeats l).length ≤ l.length := by
  conv_rhs => rw [← joinRuns_runsSplit l]
  simp only [collapseRepeats, joinRuns_length, List.map_map]
  exact List.sum_le_sum (fun r _ => collapseRun_cnt_le r)

set_option maxRecDepth 1000000 in
/--
C7 counterexample: cleanup is not idempotent.  On the 1041-character input
xy*500 ++ abc*7 ++ ab*10, the first application trims the shortest trailing
repetition (the phrase ab, candidate length 2, 10 copies) down to one copy,
leaving a 1023-character text that still ends with 7 consecutive copies of
the period-3 phrase cab; the second application trims that too, so
cleanup(cleanup(x)) has 1005 characters and differs from cleanup(x).
-/
theorem cleanup_not_idempotent :
    cleanRepeatedSubstrings (cleanRepeatedSubstrings cleanupCexInput) ≠
      cleanRepeatedSubstrings cleanupCexInput := by decide

/--
C7 amended: repetition cleanup is idempotent on inputs shorter than the
1000-character phrase-trim threshold, where only the run-collapse pass
applies: collapsing runs of 16 or more identical characters to 3 is
idempotent.  On longer inputs a second application can trim further,
because the trailing-phrase trim removes only the shortest trailing
repetition and a longer-period repetition can remain.
-/
theorem cleanup_idempotent_below_threshold (l : List Char) (hlen : l.length < 1000) :
    cleanRepeatedSubstrings (cleanRepeatedSubstrings l) = cleanRepeatedSubstrings l := by
  have h1 : (collapseRepeats l).length < 1000 :=
    lt_of_le_of_lt (collapseRepeats_length_le l) hlen
  have e1 : cleanRepeatedSubstrings l = collapseRepeats l := by
    simp only [cleanRepeatedSubstrings]
    rw [if_pos h1]
  rw [e1]
  have h2 : (collapseRepeats (collapseRepeats l)).length < 1000 := by
    rw [collapseRepeats_idem]
    exact h1
  simp only [cleanRepeatedSubstrings]
  rw [if_pos h2, collapseRepeats_idem]

/-- C7 amended witness: a 20-character run of a (collapsed to aaa by the
first pass) is a fixed point of a second application. -/
theorem cleanup_idempotent_below_threshold_witness :
    (List.replicate 20 'a').length < 1000 ∧
    cleanRepeatedSubstrings (cleanRepeatedSubstrings (List.replicate 20 'a')) =
      cleanRepeatedSubstrings (List.replicate 20 'a') :=
  ⟨by decide, cleanup_idempotent_below_threshold (List.replicate 20 'a') (by decide)⟩

end ShsEngine
